import Mathlib

/-!
Verification of the concurrent PDF-OCR pipeline in full_multi_updated2.py
(threaded variant under utils/, legacy sequential variant at top level).

Python strings are modelled as lists of characters; the external world seen by
one worker (the OCR response, the state of the page image file) is passed in
explicitly; a Python function that can raise returns an Except value, where
the error branch is an exception propagating to the caller.
-/

/-- Characters of a Python string literal. -/
def pystr (s : String) : List Char := s.data

/-- Whitespace as recognized by str.strip and str.split with no arguments
(the ASCII whitespace characters; the inputs of interest contain no exotic
Unicode spaces). -/
def pyIsSpace (c : Char) : Bool :=
  c = ' ' || c = '\t' || c = '\n' || c = '\r' || c = '\x0b' || c = '\x0c'

/-- Python str.strip(): remove leading and trailing whitespace. -/
def pyStrip (l : List Char) : List Char :=
  ((l.dropWhile pyIsSpace).reverse.dropWhile pyIsSpace).reverse

/-- Python text.split with a single newline separator: splits on each newline
character; the empty string splits to one empty field. -/
def splitNl : List Char → List (List Char)
  | [] => [[]]
  | c :: cs =>
    let r := splitNl cs
    if c = '\n' then [] :: r
    else
      match r with
      | [] => [[c]]
      | h :: t => (c :: h) :: t

/-- Python sep.join(xs). -/
def pyJoin (sep : List Char) : List (List Char) → List Char
  | [] => []
  | [x] => x
  | x :: y :: xs => x ++ sep ++ pyJoin sep (y :: xs)

/-- Helper for pySplitWs: walks the string, accumulating the current word
reversed. -/
def splitWsAux : List Char → List Char → List (List Char)
  | [], acc => if acc.isEmpty then [] else [acc.reverse]
  | c :: cs, acc =>
    if pyIsSpace c then
      if acc.isEmpty then splitWsAux cs []
      else acc.reverse :: splitWsAux cs []
    else splitWsAux cs (c :: acc)

/-- Python str.split() with no arguments: split on whitespace runs, discarding
empty fields. -/
def pySplitWs (l : List Char) : List (List Char) :=
  splitWsAux l []

/-- Decimal rendering of a page number, as interpolated by an f-string. -/
def natStr (n : Nat) : List Char := (Nat.repr n).data

/-- Python char.isascii() and char.isalpha() combined: an ASCII letter. -/
def pyIsAsciiAlpha (c : Char) : Bool :=
  (('A' ≤ c && c ≤ 'Z') || ('a' ≤ c && c ≤ 'z'))

namespace Utils

/-- detect_languages_in_text from utils/full_multi_updated2.py: the classifier
actually used by the threaded pipeline. It performs only two checks, Odia
(U+0B00..U+0B7F) and ASCII-alphabetic Latin, each appending its label, and
falls back to the single label Unknown. -/
def detect_languages_in_text (text : List Char) : List (List Char) :=
  let detected_langs : List (List Char) := []
  let detected_langs :=
    if text.any (fun char => '\u0B00' ≤ char && char ≤ '\u0B7F') then
      detected_langs ++ [pystr "Odia"]
    else detected_langs
  let detected_langs :=
    if text.any (fun char => pyIsAsciiAlpha char) then
      detected_langs ++ [pystr "Latin_Script"]
    else detected_langs
  if detected_langs.isEmpty then [pystr "Unknown"] else detected_langs

end Utils

namespace FullScript

/-- detect_languages_in_text from the legacy sequential script
full_multi_updated2.py: fifteen Unicode-block checks performed in a fixed
order, each appending its label to the accumulator, with the Unknown
fallback. -/
def detect_languages_in_text (text : List Char) : List (List Char) :=
  let detected_langs : List (List Char) := []
  let detected_langs :=
    if text.any (fun char => '\u0900' ≤ char && char ≤ '\u097F') then
      detected_langs ++ [pystr "Devanagari_Script"]
    else detected_langs
  let detected_langs :=
    if text.any (fun char => '\u0B00' ≤ char && char ≤ '\u0B7F') then
      detected_langs ++ [pystr "Odia"]
    else detected_langs
  let detected_langs :=
    if text.any (fun char => '\u0980' ≤ char && char ≤ '\u09FF') then
      detected_langs ++ [pystr "Bengali_Assamese"]
    else detected_langs
  let detected_langs :=
    if text.any (fun char => '\u0B80' ≤ char && char ≤ '\u0BFF') then
      detected_langs ++ [pystr "Tamil"]
    else detected_langs
  let detected_langs :=
    if text.any (fun char => '\u0C00' ≤ char && char ≤ '\u0C7F') then
      detected_langs ++ [pystr "Telugu"]
    else detected_langs
  let detected_langs :=
    if text.any (fun char => '\u0D00' ≤ char && char ≤ '\u0D7F') then
      detected_langs ++ [pystr "Malayalam"]
    else detected_langs
  let detected_langs :=
    if text.any (fun char => '\u0C80' ≤ char && char ≤ '\u0CFF') then
      detected_langs ++ [pystr "Kannada"]
    else detected_langs
  let detected_langs :=
    if text.any (fun char => '\u0A80' ≤ char && char ≤ '\u0AFF') then
      detected_langs ++ [pystr "Gujarati"]
    else detected_langs
  let detected_langs :=
    if text.any (fun char => '\u0A00' ≤ char && char ≤ '\u0A7F') then
      detected_langs ++ [pystr "Punjabi"]
    else detected_langs
  let detected_langs :=
    if text.any (fun char => '\u4E00' ≤ char && char ≤ '\u9FFF') then
      detected_langs ++ [pystr "Chinese"]
    else detected_langs
  let detected_langs :=
    if text.any (fun char =>
        ('\u3040' ≤ char && char ≤ '\u309F') || ('\u30A0' ≤ char && char ≤ '\u30FF')) then
      detected_langs ++ [pystr "Japanese"]
    else detected_langs
  let detected_langs :=
    if text.any (fun char => '\uAC00' ≤ char && char ≤ '\uD7AF') then
      detected_langs ++ [pystr "Korean"]
    else detected_langs
  let detected_langs :=
    if text.any (fun char => '\u0600' ≤ char && char ≤ '\u06FF') then
      detected_langs ++ [pystr "Arabic"]
    else detected_langs
  let detected_langs :=
    if text.any (fun char => '\u0400' ≤ char && char ≤ '\u04FF') then
      detected_langs ++ [pystr "Russian"]
    else detected_langs
  let detected_langs :=
    if text.any (fun char => pyIsAsciiAlpha char) then
      detected_langs ++ [pystr "Latin_Script"]
    else detected_langs
  if detected_langs.isEmpty then [pystr "Unknown"] else detected_langs

end FullScript

/-- The canonical check sequence of the specification, section 4.3: a
predicate on characters paired with the label appended when some character
of the text satisfies it, in the fixed canonical order. -/
def canonicalChecks : List ((Char → Bool) × List Char) :=
  [ (fun char => '\u0900' ≤ char && char ≤ '\u097F', pystr "Devanagari_Script"),
    (fun char => '\u0B00' ≤ char && char ≤ '\u0B7F', pystr "Odia"),
    (fun char => '\u0980' ≤ char && char ≤ '\u09FF', pystr "Bengali_Assamese"),
    (fun char => '\u0B80' ≤ char && char ≤ '\u0BFF', pystr "Tamil"),
    (fun char => '\u0C00' ≤ char && char ≤ '\u0C7F', pystr "Telugu"),
    (fun char => '\u0D00' ≤ char && char ≤ '\u0D7F', pystr "Malayalam"),
    (fun char => '\u0C80' ≤ char && char ≤ '\u0CFF', pystr "Kannada"),
    (fun char => '\u0A80' ≤ char && char ≤ '\u0AFF', pystr "Gujarati"),
    (fun char => '\u0A00' ≤ char && char ≤ '\u0A7F', pystr "Punjabi"),
    (fun char => '\u4E00' ≤ char && char ≤ '\u9FFF', pystr "Chinese"),
    (fun char =>
      ('\u3040' ≤ char && char ≤ '\u309F') || ('\u30A0' ≤ char && char ≤ '\u30FF'),
      pystr "Japanese"),
    (fun char => '\uAC00' ≤ char && char ≤ '\uD7AF', pystr "Korean"),
    (fun char => '\u0600' ≤ char && char ≤ '\u06FF', pystr "Arabic"),
    (fun char => '\u0400' ≤ char && char ≤ '\u04FF', pystr "Russian"),
    (fun char => pyIsAsciiAlpha char, pystr "Latin_Script") ]

/-- Running a list of checks left to right over an accumulator, appending the
label of every check matched by some character of the text. -/
def foldChecks (text : List Char) :
    List ((Char → Bool) × List Char) → List (List Char) → List (List Char)
  | [], acc => acc
  | c :: cs, acc => foldChecks text cs (if text.any c.1 then acc ++ [c.2] else acc)

/-- Spec-side classifier, following the words of the specification: append, in
the fixed canonical order, each label whose Unicode block contains some
character of the text; return the single label Unknown when no check
matches. -/
def classifySpec (text : List Char) : List (List Char) :=
  let matched := (canonicalChecks.filter (fun ch => text.any ch.1)).map (fun ch => ch.2)
  if matched.isEmpty then [pystr "Unknown"] else matched

/-- The per-page dict built by process_single_page. Keys that a given branch
does not put into the dict are modelled as none. -/
structure PageResult where
  page_number : Nat
  full_text : Option (List Char)
  word_count : Option Nat
  has_content : Bool
  detected_languages : Option (List (List Char))
  error : Option (List Char)
deriving DecidableEq, Repr

deriving instance DecidableEq for Except

/-- The slice of the external world one worker observes for its page: the
outcome of perform_ocr_on_image (file read plus remote call; on success the
text of the full_text_annotation, the empty string when the annotation is
absent), whether the page image file exists when the finally block runs, and
whether os.remove succeeds if attempted. -/
structure PageEnv where
  ocr : Except (List Char) (List Char)
  fileExists : Bool
  removeOk : Bool
deriving DecidableEq, Repr

namespace Utils

/-- The success-branch dict of process_single_page: strip each line of the
raw text, keep the non-empty ones, rejoin with newlines, count words, flag
content, classify the raw text. -/
def pageSuccessResult (page_num : Nat) (ocr_text : List Char) : PageResult :=
  let lines :=
    ((splitNl ocr_text).filter (fun line => !(pyStrip line).isEmpty)).map pyStrip
  { page_number := page_num
    full_text := some (pyJoin ['\n'] lines)
    word_count := some (if lines.isEmpty then 0 else (pySplitWs (pyJoin [' '] lines)).length)
    has_content := !lines.isEmpty
    detected_languages := some (detect_languages_in_text ocr_text)
    error := none }

/-- The except-branch dict of process_single_page: page number, the message
of the caught exception, and has_content false; no other key is set. -/
def pageErrorResult (page_num : Nat) (e : List Char) : PageResult :=
  { page_number := page_num
    full_text := none
    word_count := none
    has_content := false
    detected_languages := none
    error := some e }

/-- process_single_page together with its effect on the page image file.
The try and except clauses compute a PageResult on every OCR outcome; the
finally clause then removes the image file when cleanup is enabled and the
file exists, and an exception raised by that unguarded os.remove call
replaces the outcome of the whole function. The second component records
whether the image file still exists after the call. -/
def process_single_page_run (page_num : Nat) (env : PageEnv) (clean_images : Bool) :
    Except (List Char) PageResult × Bool :=
  let result : PageResult :=
    match env.ocr with
    | .ok text => pageSuccessResult page_num text
    | .error e => pageErrorResult page_num e
  if clean_images && env.fileExists then
    if env.removeOk then (.ok result, false)
    else (.error (pystr "OSError: cannot remove page image"), true)
  else (.ok result, env.fileExists)

/-- The value of process_single_page as seen by the caller: a PageResult, or
an exception propagating out. -/
def process_single_page (page_num : Nat) (env : PageEnv) (clean_images : Bool) :
    Except (List Char) PageResult :=
  (process_single_page_run page_num env clean_images).1

/-- One submitted future per page image, pages numbered from n upward in
submission order. -/
def tasksFrom (clean_images : Bool) : Nat → List PageEnv → List (Except (List Char) PageResult)
  | _, [] => []
  | n, e :: es => process_single_page n e clean_images :: tasksFrom clean_images (n + 1) es

/-- The futures submitted by main: one per page image, numbered i + 1 in
enumeration order. -/
def submitTasks (envs : List PageEnv) (clean_images : Bool) :
    List (Except (List Char) PageResult) :=
  tasksFrom clean_images 1 envs

/-- The as_completed collection loop: each future whose call returned is
appended to all_pages_data; a future whose call raised is only logged, so
its page is dropped. The argument is the completion-ordered list of
outcomes. -/
def collectResults (completed : List (Except (List Char) PageResult)) : List PageResult :=
  completed.filterMap (fun o => o.toOption)

/-- Stable insertion into a list ordered by page number. -/
def insertPage (a : PageResult) : List PageResult → List PageResult
  | [] => [a]
  | b :: l =>
    if a.page_number ≤ b.page_number then a :: b :: l else b :: insertPage a l

/-- all_pages_data.sort with key page_number: a stable sort by page number
(stable sorts agree on every input, so insertion sort is observationally the
same function as the sort used by the interpreter). -/
def sortByPage : List PageResult → List PageResult
  | [] => []
  | a :: l => insertPage a (sortByPage l)

/-- The batch assembled by main from the completion-ordered outcomes:
collect the results that did not raise, then sort by page number. -/
def batchOf (completed : List (Except (List Char) PageResult)) : List PageResult :=
  sortByPage (collectResults completed)

/-- convert_pdf_to_images: the whole conversion runs in one try block whose
except clause returns the empty list, so a document that cannot be opened
produces no page images at all. On success the pages come back in source
order; each page image carries the external behavior its worker will
observe. -/
def convert_pdf_to_images (openResult : Except (List Char) (List PageEnv)) : List PageEnv :=
  match openResult with
  | .error _ => []
  | .ok pages => pages

/-- Python truthiness of p.get of the error key: false for an absent error
key and for an empty error message. -/
def pageErrorTruthy (p : PageResult) : Bool :=
  match p.error with
  | none => false
  | some e => !e.isEmpty

/-- One f-string entry of the plain-text artifact; reading a missing
full_text key raises KeyError. -/
def pageTextEntry (p : PageResult) : Except (List Char) (List Char) :=
  match p.full_text with
  | some t => .ok (pystr "=== Page " ++ natStr p.page_number ++ pystr " ===\n" ++ t)
  | none => .error (pystr "KeyError: full_text")

/-- The list comprehension building all_text in save_results: keep the pages
whose error key is falsy, formatting each with the page delimiter; a KeyError
raised while formatting aborts save_results. -/
def buildAllText : List PageResult → Except (List Char) (List (List Char))
  | [] => .ok []
  | p :: ps =>
    if pageErrorTruthy p then buildAllText ps
    else
      match pageTextEntry p with
      | .error e => .error e
      | .ok t =>
        match buildAllText ps with
        | .error e => .error e
        | .ok ts => .ok (t :: ts)

/-- save_results from utils/full_multi_updated2.py, as the sequence of its
two writes. The json.dump of the complete aggregated list (modelled as the
list itself, since json.dump is an injective pure serialization) completes
first, so the JSON artifact — the first component — is on disk before the
list comprehension building all_text runs. The second component is the fate
of the plain-text artifact: its joined content, or the KeyError escaping the
comprehension, in which case the text file is never written and the run
leaves a partial output, the JSON artifact alone. -/
def save_results (all_pages_data : List PageResult) :
    List PageResult × Except (List Char) (List Char) :=
  (all_pages_data,
    match buildAllText all_pages_data with
    | .error e => .error e
    | .ok all_text => .ok (pyJoin (pystr "\n\n") all_text))

/-- main from utils/full_multi_updated2.py up to the batch: abort with no
batch when the PDF path does not exist or when conversion produced no
images; otherwise assemble the batch from the completion-ordered worker
outcomes. The persisted artifacts are a function of the returned batch. -/
def mainRun (pdf_exists : Bool) (openResult : Except (List Char) (List PageEnv))
    (completed : List (Except (List Char) PageResult)) :
    Option (List PageResult) :=
  if !pdf_exists then none
  else
    let image_files := convert_pdf_to_images openResult
    if image_files.isEmpty then none
    else some (batchOf completed)

end Utils

/-- Spec-side normalization, following the words of the specification: split
on line breaks, trim each line, discard empty lines. -/
def normalizeSpec (t : List Char) : List (List Char) :=
  ((splitNl t).map pyStrip).filter (fun l => !l.isEmpty)

/-- Spec-side flattened text artifact: the concatenation of only the
successful pages (error key absent), each under the page delimiter. -/
def persistSpecTxt (batch : List PageResult) : List Char :=
  pyJoin (pystr "\n\n")
    ((batch.filter (fun p => p.error.isNone)).map
      (fun p => pystr "=== Page " ++ natStr p.page_number ++ pystr " ===\n" ++
        p.full_text.getD []))

/-- Threading configuration of utils/full_multi_updated2.py: the number of
parallel API requests. -/
def MAX_WORKERS : Nat := 10

/-- A page task running on a pool worker; inOcr records whether the worker is
currently inside the remote OCR call of perform_ocr_on_image. -/
structure RunningTask where
  page : Nat
  inOcr : Bool
deriving DecidableEq, Repr

/-- State of the executor driving the pipeline: submitted futures not yet
picked up by a worker, tasks currently running on a worker, and pages whose
future has completed. -/
structure PoolState where
  pending : List Nat
  running : List RunningTask
  done : List Nat
deriving DecidableEq, Repr

/-- Transitions of the pipeline under the documented ThreadPoolExecutor
contract: a submitted task starts only while fewer than W tasks are running
(the max_workers bound, the sole admission control), and one execution of
process_single_page is inside at most one OCR call at a time, entering and
leaving it around the remote request. Completion order is unconstrained. -/
inductive PoolStep (W : Nat) : PoolState → PoolState → Prop
  | start (p : Nat) (ps : List Nat) (r : List RunningTask) (d : List Nat) :
      r.length < W →
      PoolStep W ⟨p :: ps, r, d⟩ ⟨ps, ⟨p, false⟩ :: r, d⟩
  | enterOcr (pend : List Nat) (r₁ r₂ : List RunningTask) (p : Nat) (d : List Nat) :
      PoolStep W ⟨pend, r₁ ++ ⟨p, false⟩ :: r₂, d⟩ ⟨pend, r₁ ++ ⟨p, true⟩ :: r₂, d⟩
  | exitOcr (pend : List Nat) (r₁ r₂ : List RunningTask) (p : Nat) (d : List Nat) :
      PoolStep W ⟨pend, r₁ ++ ⟨p, true⟩ :: r₂, d⟩ ⟨pend, r₁ ++ ⟨p, false⟩ :: r₂, d⟩
  | finish (pend : List Nat) (r₁ r₂ : List RunningTask) (p : Nat) (d : List Nat) :
      PoolStep W ⟨pend, r₁ ++ ⟨p, false⟩ :: r₂, d⟩ ⟨pend, r₁ ++ r₂, p :: d⟩

/-- Initial executor state for an n-page document: every page submitted, no
worker busy. -/
def initPool (n : Nat) : PoolState :=
  { pending := List.range' 1 n, running := [], done := [] }

/-- States the pipeline run can reach from the initial submission. -/
def PoolReachable (W n : Nat) (s : PoolState) : Prop :=
  Relation.ReflTransGen (PoolStep W) (initPool n) s

/-- Number of OCR calls in flight in a pool state. -/
def inflightOcr (s : PoolState) : Nat :=
  (s.running.filter (fun t => t.inOcr)).length

theorem insertPage_perm (a : PageResult) :
    ∀ l : List PageResult, (Utils.insertPage a l).Perm (a :: l)
  | [] => List.Perm.refl _
  | b :: l => by
    unfold Utils.insertPage
    by_cases h : a.page_number ≤ b.page_number
    · simp [h]
    · simp only [if_neg h]
      exact ((insertPage_perm a l).cons b).trans (List.Perm.swap a b l)

theorem sortByPage_perm : ∀ l : List PageResult, (Utils.sortByPage l).Perm l
  | [] => List.Perm.refl _
  | a :: l =>
    (insertPage_perm a (Utils.sortByPage l)).trans ((sortByPage_perm l).cons a)

theorem insertPage_sorted (a : PageResult) :
    ∀ l : List PageResult,
      l.Pairwise (fun x y => x.page_number ≤ y.page_number) →
      (Utils.insertPage a l).Pairwise (fun x y => x.page_number ≤ y.page_number)
  | [], _ => by simp [Utils.insertPage]
  | b :: l, h => by
    rcases List.pairwise_cons.mp h with ⟨hb, hl⟩
    unfold Utils.insertPage
    by_cases hab : a.page_number ≤ b.page_number
    · simp only [if_pos hab]
      refine List.pairwise_cons.mpr ⟨?_, h⟩
      intro y hy
      rcases List.mem_cons.mp hy with rfl | hy
      · exact hab
      · exact le_trans hab (hb y hy)
    · simp only [if_neg hab]
      refine List.pairwise_cons.mpr ⟨?_, insertPage_sorted a l hl⟩
      intro y hy
      rcases List.mem_cons.mp ((insertPage_perm a l).mem_iff.mp hy) with h | h
      · exact h ▸ le_of_lt (lt_of_not_le hab)
      · exact hb y h

theorem sortByPage_sorted :
    ∀ l : List PageResult,
      (Utils.sortByPage l).Pairwise (fun x y => x.page_number ≤ y.page_number)
  | [] => List.Pairwise.nil
  | a :: l => insertPage_sorted a (Utils.sortByPage l) (sortByPage_sorted l)

/-- Two lists that are permutations of each other, both sorted by page
number, with pairwise distinct page numbers, are equal: the sorted batch is
determined by the multiset of results. -/
theorem sorted_perm_nodup_eq :
    ∀ l₁ l₂ : List PageResult, l₁.Perm l₂ →
      l₁.Pairwise (fun x y => x.page_number ≤ y.page_number) →
      l₂.Pairwise (fun x y => x.page_number ≤ y.page_number) →
      (l₁.map PageResult.page_number).Nodup →
      l₁ = l₂
  | [], l₂, hp, _, _, _ => (hp.symm.eq_nil).symm
  | a :: t₁, [], hp, _, _, _ => absurd hp.eq_nil (by simp)
  | a :: t₁, b :: t₂, hp, hs₁, hs₂, hn => by
    rcases List.pairwise_cons.mp hs₁ with ⟨ha₁, hs₁t⟩
    rcases List.pairwise_cons.mp hs₂ with ⟨hb₂, hs₂t⟩
    have hab : a = b := by
      by_contra hne
      have hbmem : b ∈ t₁ := by
        rcases List.mem_cons.mp (hp.symm.subset (List.mem_cons_self b t₂)) with h | h
        · exact absurd h.symm hne
        · exact h
      have hamem : a ∈ t₂ := by
        rcases List.mem_cons.mp (hp.subset (List.mem_cons_self a t₁)) with h | h
        · exact absurd h hne
        · exact h
      have hpage : a.page_number = b.page_number :=
        Nat.le_antisymm (ha₁ b hbmem) (hb₂ a hamem)
      have hn₂ := ((hp.map PageResult.page_number).nodup_iff).mp hn
      rw [List.map_cons] at hn₂
      have hbnot := (List.nodup_cons.mp hn₂).1
      exact hbnot (hpage ▸ List.mem_map_of_mem PageResult.page_number hamem)
    subst hab
    have ht : t₁.Perm t₂ := hp.cons_inv
    have hnt : (t₁.map PageResult.page_number).Nodup :=
      (List.nodup_cons.mp (by simpa using hn)).2
    exact congrArg (a :: ·) (sorted_perm_nodup_eq t₁ t₂ ht hs₁t hs₂t hnt)

/-- When the cleanup in the finally clause does not raise, process_single_page
returns the PageResult computed by the try and except clauses. -/
theorem process_single_page_ok_of (n : Nat) (env : PageEnv) (c : Bool)
    (h : (c && env.fileExists && !env.removeOk) = false) :
    Utils.process_single_page n env c =
      .ok (match env.ocr with
           | .ok t => Utils.pageSuccessResult n t
           | .error e => Utils.pageErrorResult n e) := by
  rcases env with ⟨ocr, fe, ro⟩
  cases ocr <;> cases c <;> cases fe <;> cases ro <;>
    simp_all [Utils.process_single_page, Utils.process_single_page_run]

/-- Every PageResult actually returned by process_single_page carries the
page number it was given. -/
theorem process_single_page_page (n : Nat) (env : PageEnv) (c : Bool)
    (r : PageResult) (h : Utils.process_single_page n env c = .ok r) :
    r.page_number = n := by
  rcases env with ⟨ocr, fe, ro⟩
  cases ocr <;> cases c <;> cases fe <;> cases ro <;>
    simp_all [Utils.process_single_page, Utils.process_single_page_run,
      Utils.pageSuccessResult, Utils.pageErrorResult] <;>
    exact (congrArg PageResult.page_number h.symm)

theorem collectResults_cons (x : Except (List Char) PageResult)
    (xs : List (Except (List Char) PageResult)) :
    Utils.collectResults (x :: xs) =
      match x with
      | .ok r => r :: Utils.collectResults xs
      | .error _ => Utils.collectResults xs := by
  cases x <;> simp [Utils.collectResults, Except.toOption]

theorem mem_collect_tasksFrom_le (c : Bool) :
    ∀ (n : Nat) (envs : List PageEnv) (r : PageResult),
      r ∈ Utils.collectResults (Utils.tasksFrom c n envs) → n ≤ r.page_number
  | _, [], r, hr => by simp [Utils.tasksFrom, Utils.collectResults] at hr
  | n, e :: es, r, hr => by
    unfold Utils.tasksFrom at hr
    rw [collectResults_cons] at hr
    cases hp : Utils.process_single_page n e c with
    | error msg =>
      rw [hp] at hr
      exact le_trans (Nat.le_succ n) (mem_collect_tasksFrom_le c (n + 1) es r hr)
    | ok r₀ =>
      rw [hp] at hr
      rcases List.mem_cons.mp hr with rfl | hr
      · exact le_of_eq (process_single_page_page n e c r hp).symm
      · exact le_trans (Nat.le_succ n) (mem_collect_tasksFrom_le c (n + 1) es r hr)

theorem pairwise_collect_tasksFrom (c : Bool) :
    ∀ (n : Nat) (envs : List PageEnv),
      (Utils.collectResults (Utils.tasksFrom c n envs)).Pairwise
        (fun x y => x.page_number < y.page_number)
  | _, [] => by simp [Utils.tasksFrom, Utils.collectResults]
  | n, e :: es => by
    unfold Utils.tasksFrom
    rw [collectResults_cons]
    cases hp : Utils.process_single_page n e c with
    | error msg =>
      exact pairwise_collect_tasksFrom c (n + 1) es
    | ok r₀ =>
      refine List.pairwise_cons.mpr ⟨?_, pairwise_collect_tasksFrom c (n + 1) es⟩
      intro y hy
      have := mem_collect_tasksFrom_le c (n + 1) es y hy
      have hr₀ := process_single_page_page n e c r₀ hp
      omega

/-- With no cleanup failure anywhere, every submitted future returns a
PageResult and the collected page numbers are exactly the dense range. -/
theorem collect_tasksFrom_of_ok (c : Bool) :
    ∀ (n : Nat) (envs : List PageEnv),
      (∀ e ∈ envs, (c && e.fileExists && !e.removeOk) = false) →
      (Utils.collectResults (Utils.tasksFrom c n envs)).map PageResult.page_number =
        List.range' n envs.length
  | _, [], _ => by simp [Utils.tasksFrom, Utils.collectResults]
  | n, e :: es, h => by
    unfold Utils.tasksFrom
    rw [collectResults_cons,
      process_single_page_ok_of n e c (h e (List.mem_cons_self e es))]
    have ih := collect_tasksFrom_of_ok c (n + 1) es
      (fun x hx => h x (List.mem_cons_of_mem e hx))
    cases hocr : e.ocr <;>
      simp [List.length_cons, List.range'_succ, ih,
        Utils.pageSuccessResult, Utils.pageErrorResult]

theorem collectResults_perm {l₁ l₂ : List (Except (List Char) PageResult)}
    (h : l₁.Perm l₂) :
    (Utils.collectResults l₁).Perm (Utils.collectResults l₂) :=
  h.filterMap _

theorem batch_nodup_pages (envs : List PageEnv) (c : Bool)
    (completed : List (Except (List Char) PageResult))
    (hperm : completed.Perm (Utils.submitTasks envs c)) :
    ((Utils.batchOf completed).map PageResult.page_number).Nodup := by
  have hbc : (Utils.batchOf completed).Perm
      (Utils.collectResults (Utils.submitTasks envs c)) :=
    (sortByPage_perm _).trans (collectResults_perm hperm)
  have h2 : ((Utils.collectResults (Utils.submitTasks envs c)).map
      PageResult.page_number).Nodup :=
    List.pairwise_map.mpr ((pairwise_collect_tasksFrom c 1 envs).imp Nat.ne_of_lt)
  exact ((hbc.map PageResult.page_number).nodup_iff).mpr h2

/-- C1 fails as stated: for this two-page document, cleanup is enabled and
the deletion of the first page image fails, so the OSError raised by the
finally clause of process_single_page escapes the worker; the collection
loop in main only logs it and appends nothing, and the returned batch has a
gap — no PageResult with page_number 1 exists. -/
theorem batch_drops_page_of_worker_exception :
    (Utils.batchOf (Utils.submitTasks
        [⟨.ok (pystr "a"), true, false⟩, ⟨.ok (pystr "b"), true, true⟩] true)).map
      PageResult.page_number = [2] := by decide

/-- C1 (amended): for any completion order of the submitted page tasks, the
batch is strictly ascending in page_number (hence duplicate-free and
sorted); and provided no worker propagates an exception — in particular
whenever no enabled cleanup deletion fails — the batch contains exactly one
PageResult per page, its page numbers being exactly 1..N in order. A page
whose task raises is silently dropped from the batch. -/
theorem batch_pages_complete (envs : List PageEnv) (c : Bool)
    (completed : List (Except (List Char) PageResult))
    (hperm : completed.Perm (Utils.submitTasks envs c)) :
    (Utils.batchOf completed).Pairwise
      (fun x y => x.page_number < y.page_number) ∧
    ((∀ e ∈ envs, (c && e.fileExists && !e.removeOk) = false) →
      (Utils.batchOf completed).map PageResult.page_number =
        List.range' 1 envs.length) := by
  have hbc : (Utils.batchOf completed).Perm
      (Utils.collectResults (Utils.submitTasks envs c)) :=
    (sortByPage_perm _).trans (collectResults_perm hperm)
  have hnd := batch_nodup_pages envs c completed hperm
  constructor
  · have hne : (Utils.batchOf completed).Pairwise
        (fun x y => x.page_number ≠ y.page_number) := List.pairwise_map.mp hnd
    exact ((sortByPage_sorted _).and hne).imp fun h => Nat.lt_of_le_of_ne h.1 h.2
  · intro hok
    have heq : Utils.batchOf completed =
        Utils.collectResults (Utils.submitTasks envs c) :=
      sorted_perm_nodup_eq _ _ hbc (sortByPage_sorted _)
        ((pairwise_collect_tasksFrom c 1 envs).imp le_of_lt) hnd
    rw [heq]
    exact collect_tasksFrom_of_ok c 1 envs hok

/-- C1 witness: a concrete two-page run with all cleanups succeeding, taken
in submission order, yields exactly the page numbers 1 and 2 in order. -/
theorem batch_pages_complete_witness :
    (Utils.batchOf (Utils.submitTasks
        [⟨.ok (pystr "x"), true, true⟩, ⟨.ok [], false, true⟩] true)).map
      PageResult.page_number = List.range' 1 2 :=
  (batch_pages_complete [⟨.ok (pystr "x"), true, true⟩, ⟨.ok [], false, true⟩] true
    _ (List.Perm.refl _)).2 (by decide)

/-- C4: given the per-page external outcomes, the batch assembled by main is
the same for every completion order of the worker futures: the final batch
content is a pure function of the per-page processing outcomes. -/
theorem batch_independent_of_completion_order (envs : List PageEnv) (c : Bool)
    (o₁ o₂ : List (Except (List Char) PageResult))
    (h₁ : o₁.Perm (Utils.submitTasks envs c))
    (h₂ : o₂.Perm (Utils.submitTasks envs c)) :
    Utils.batchOf o₁ = Utils.batchOf o₂ := by
  apply sorted_perm_nodup_eq
  · exact (sortByPage_perm _).trans
      ((collectResults_perm (h₁.trans h₂.symm)).trans (sortByPage_perm _).symm)
  · exact sortByPage_sorted _
  · exact sortByPage_sorted _
  · exact batch_nodup_pages envs c o₁ h₁

/-- C4 witness: on a concrete two-page document, processing the completion
stream in reversed order yields the same batch as submission order. -/
theorem batch_independent_witness :
    Utils.batchOf (Utils.submitTasks
        [⟨.error (pystr "boom"), false, true⟩, ⟨.ok (pystr "hello"), false, true⟩]
        false).reverse =
      Utils.batchOf (Utils.submitTasks
        [⟨.error (pystr "boom"), false, true⟩, ⟨.ok (pystr "hello"), false, true⟩]
        false) :=
  batch_independent_of_completion_order
    [⟨.error (pystr "boom"), false, true⟩, ⟨.ok (pystr "hello"), false, true⟩] false
    _ _ (List.reverse_perm _) (List.Perm.refl _)

/-- C2 fails as stated: with cleanup enabled, the page image present, and
os.remove failing, the finally clause of process_single_page raises and the
exception propagates to the caller — no PageResult is returned at all. -/
theorem process_single_page_can_propagate :
    Utils.process_single_page 1 ⟨.ok (pystr "hi"), true, false⟩ true =
      .error (pystr "OSError: cannot remove page image") := by decide

/-- C2 (amended): provided the cleanup deletion in the finally clause does
not fail (cleanup disabled, file absent, or os.remove succeeding),
process_single_page never propagates: an OCR failure is converted into a
PageResult carrying the error message and has_content false with the same
page number, and a success returns a normal result with no error field. -/
theorem process_single_page_isolates_failures (page : Nat) (env : PageEnv)
    (c : Bool) (hclean : (c && env.fileExists && !env.removeOk) = false) :
    (∀ msg, env.ocr = .error msg →
      Utils.process_single_page page env c = .ok (Utils.pageErrorResult page msg) ∧
      (Utils.pageErrorResult page msg).error = some msg ∧
      (Utils.pageErrorResult page msg).has_content = false ∧
      (Utils.pageErrorResult page msg).page_number = page) ∧
    (∀ text, env.ocr = .ok text →
      Utils.process_single_page page env c = .ok (Utils.pageSuccessResult page text) ∧
      (Utils.pageSuccessResult page text).error = none ∧
      (Utils.pageSuccessResult page text).page_number = page) := by
  constructor
  · intro msg hmsg
    refine ⟨?_, rfl, rfl, rfl⟩
    rw [process_single_page_ok_of page env c hclean, hmsg]
  · intro text htext
    refine ⟨?_, rfl, rfl⟩
    rw [process_single_page_ok_of page env c hclean, htext]

/-- C2 witness: a concrete worker whose OCR call fails with message quota,
with cleanup enabled and deletion succeeding, is converted to an error
PageResult in place. -/
theorem process_single_page_isolates_failures_witness :
    (∀ msg, (⟨.error (pystr "quota"), true, true⟩ : PageEnv).ocr = .error msg →
      Utils.process_single_page 3 ⟨.error (pystr "quota"), true, true⟩ true =
        .ok (Utils.pageErrorResult 3 msg) ∧
      (Utils.pageErrorResult 3 msg).error = some msg ∧
      (Utils.pageErrorResult 3 msg).has_content = false ∧
      (Utils.pageErrorResult 3 msg).page_number = 3) ∧
    (∀ text, (⟨.error (pystr "quota"), true, true⟩ : PageEnv).ocr = .ok text →
      Utils.process_single_page 3 ⟨.error (pystr "quota"), true, true⟩ true =
        .ok (Utils.pageSuccessResult 3 text) ∧
      (Utils.pageSuccessResult 3 text).error = none ∧
      (Utils.pageSuccessResult 3 text).page_number = 3) :=
  process_single_page_isolates_failures 3 ⟨.error (pystr "quota"), true, true⟩ true
    (by decide)

/-- C3 fails as stated: when the deletion in the finally clause itself
fails, it is not merely logged — the already-computed PageResult is
replaced by the propagating OSError (and the page image remains). -/
theorem cleanup_failure_not_benign :
    (Utils.process_single_page_run 2 ⟨.ok (pystr "text"), true, false⟩ true).1 ≠
      .ok (Utils.pageSuccessResult 2 (pystr "text")) ∧
    (Utils.process_single_page_run 2 ⟨.ok (pystr "text"), true, false⟩ true).2 = true := by
  decide

/-- C3 (amended): with cleanup enabled, the finally clause attempts the
deletion on the success path and the failure path alike: afterwards the
image file remains iff it existed and os.remove failed; when the deletion
does not fail, the PageResult computed by the try and except clauses is
returned unchanged; but a deletion failure propagates as an exception and
the computed PageResult is lost. -/
theorem cleanup_on_every_exit_path (page : Nat) (env : PageEnv) :
    ((Utils.process_single_page_run page env true).2 =
      (env.fileExists && !env.removeOk)) ∧
    ((env.fileExists && !env.removeOk) = false →
      (Utils.process_single_page_run page env true).1 =
        .ok (match env.ocr with
             | .ok t => Utils.pageSuccessResult page t
             | .error e => Utils.pageErrorResult page e)) ∧
    ((env.fileExists && !env.removeOk) = true →
      ∀ r : PageResult, (Utils.process_single_page_run page env true).1 ≠ .ok r) := by
  rcases env with ⟨ocr, fe, ro⟩
  cases ocr <;> cases fe <;> cases ro <;>
    simp [Utils.process_single_page_run]

/-- C3 witness: a concrete successful page with cleanup enabled and
deletion succeeding: the file is gone afterwards and the computed
PageResult is returned unchanged. -/
theorem cleanup_on_every_exit_path_witness :
    ((Utils.process_single_page_run 4 ⟨.ok (pystr "ok"), true, true⟩ true).2 =
      ((true : Bool) && !(true : Bool))) ∧
    (((true : Bool) && !(true : Bool)) = false →
      (Utils.process_single_page_run 4 ⟨.ok (pystr "ok"), true, true⟩ true).1 =
        .ok (Utils.pageSuccessResult 4 (pystr "ok"))) ∧
    (((true : Bool) && !(true : Bool)) = true →
      ∀ r : PageResult,
        (Utils.process_single_page_run 4 ⟨.ok (pystr "ok"), true, true⟩ true).1 ≠ .ok r) :=
  cleanup_on_every_exit_path 4 ⟨.ok (pystr "ok"), true, true⟩

theorem foldChecks_eq_append (text : List Char) :
    ∀ (cs : List ((Char → Bool) × List Char)) (acc : List (List Char)),
      foldChecks text cs acc =
        acc ++ (cs.filter (fun ch => text.any ch.1)).map (fun ch => ch.2)
  | [], acc => by simp [foldChecks]
  | ch :: cs, acc => by
    by_cases h : text.any ch.1 <;>
      simp [foldChecks, h, foldChecks_eq_append text cs, List.filter_cons]

theorem fullScript_detect_eq_fold (t : List Char) :
    FullScript.detect_languages_in_text t =
      (if (foldChecks t canonicalChecks []).isEmpty then [pystr "Unknown"]
       else foldChecks t canonicalChecks []) := rfl

theorem fullScript_detect_eq_classifySpec (t : List Char) :
    FullScript.detect_languages_in_text t = classifySpec t := by
  rw [fullScript_detect_eq_fold, foldChecks_eq_append]
  simp [classifySpec]

theorem canonicalChecks_labels_ne_unknown :
    ∀ ch ∈ canonicalChecks, ch.2 ≠ pystr "Unknown" := by
  intro ch hch
  simp only [canonicalChecks, List.mem_cons, List.mem_singleton] at hch
  rcases hch with rfl | rfl | rfl | rfl | rfl | rfl | rfl | rfl | rfl | rfl | rfl |
    rfl | rfl | rfl | rfl | h
  all_goals first
    | decide
    | exact absurd h (List.not_mem_nil ch)

theorem fullScript_unknown_iff (t : List Char) :
    FullScript.detect_languages_in_text t = [pystr "Unknown"] ↔
      ∀ ch ∈ canonicalChecks, t.any ch.1 = false := by
  rw [fullScript_detect_eq_classifySpec]
  unfold classifySpec
  by_cases h : ((canonicalChecks.filter (fun ch => t.any ch.1)).map
      (fun ch => ch.2)).isEmpty
  · rw [if_pos h]
    rw [List.isEmpty_iff, List.map_eq_nil_iff, List.filter_eq_nil_iff] at h
    simp only [true_iff, eq_self_iff_true]
    intro ch hch
    simpa using h ch hch
  · rw [if_neg h]
    rw [List.isEmpty_iff, List.map_eq_nil_iff, List.filter_eq_nil_iff] at h
    push_neg at h
    rcases h with ⟨ch, hch, hany⟩
    constructor
    · intro heq
      have : ch.2 ∈ (canonicalChecks.filter (fun c => t.any c.1)).map (fun c => c.2) :=
        List.mem_map_of_mem _ (List.mem_filter.mpr ⟨hch, hany⟩)
      rw [heq] at this
      exact absurd (List.mem_singleton.mp this)
        (canonicalChecks_labels_ne_unknown ch hch)
    · intro hall
      exact absurd (hall ch hch) (by simp [hany])

/-- C5 fails as stated: the script classifier the concurrent pipeline uses
(detect_languages_in_text in utils/full_multi_updated2.py) performs only the
Odia and ASCII-Latin checks, so text mixing Latin and Devanagari characters
yields only the Latin label — the Devanagari label is absent. -/
theorem pipeline_detector_misses_devanagari :
    Utils.detect_languages_in_text (pystr "नमस्ते hello") = [pystr "Latin_Script"] ∧
    ¬ pystr "Devanagari_Script" ∈
        Utils.detect_languages_in_text (pystr "नमस्ते hello") := by decide

/-- C5 (amended): the classifier of the legacy sequential script
full_multi_updated2.py checks exactly the canonical sequence of Unicode
block tests in the fixed order, appending each label whose block contains
some character of the text; it returns the single label Unknown iff no check
matches; and text mixing Latin and Devanagari yields both labels there. The
classifier the threaded pipeline uses has only the Odia and Latin checks,
and on the same mixed text yields only the Latin label. -/
theorem detect_languages_canonical :
    (∀ text : List Char,
        FullScript.detect_languages_in_text text = classifySpec text ∧
        (FullScript.detect_languages_in_text text = [pystr "Unknown"] ↔
          ∀ ch ∈ canonicalChecks, text.any ch.1 = false)) ∧
    FullScript.detect_languages_in_text (pystr "नमस्ते hello") =
      [pystr "Devanagari_Script", pystr "Latin_Script"] ∧
    Utils.detect_languages_in_text (pystr "नमस्ते hello") = [pystr "Latin_Script"] := by
  refine ⟨fun text => ⟨fullScript_detect_eq_classifySpec text,
    fullScript_unknown_iff text⟩, by decide, by decide⟩

theorem filter_comp_map {α β : Type} (f : α → β) (p : β → Bool) :
    ∀ l : List α, (l.filter (fun x => p (f x))).map f = (l.map f).filter p
  | [] => rfl
  | a :: l => by
    by_cases h : p (f a) <;>
      simp [List.filter_cons, h, filter_comp_map f p l]

/-- C6: the normalization performed by the per-page processor splits the raw
OCR text on line breaks, trims each line, discards the empty lines and
rejoins with newlines, setting has_content accordingly; on the concrete
input of the specification it produces exactly Hello, a newline, World,
with has_content true. -/
theorem normalization_correct :
    (∀ (raw : List Char) (n : Nat),
        (Utils.pageSuccessResult n raw).full_text =
          some (pyJoin ['\n'] (normalizeSpec raw)) ∧
        (Utils.pageSuccessResult n raw).has_content =
          !(normalizeSpec raw).isEmpty) ∧
    (Utils.pageSuccessResult 1 (pystr "  Hello \n\n World  \n")).full_text =
      some (pystr "Hello\nWorld") ∧
    (Utils.pageSuccessResult 1 (pystr "  Hello \n\n World  \n")).has_content = true := by
  refine ⟨fun raw n => ?_, by decide, by decide⟩
  have h := filter_comp_map pyStrip (fun l => !l.isEmpty) (splitNl raw)
  constructor
  · simp [Utils.pageSuccessResult, normalizeSpec, h]
  · simp [Utils.pageSuccessResult, normalizeSpec, h]

/-- C7: when the source document cannot be opened, the except clause of
convert_pdf_to_images returns the empty list — no partial page list — and
main aborts before any page work, returning no batch at all. -/
theorem document_open_failure_aborts (msg : List Char) (pdf_exists : Bool)
    (openResult : Except (List Char) (List PageEnv))
    (completed : List (Except (List Char) PageResult))
    (h : openResult = .error msg) :
    Utils.convert_pdf_to_images openResult = [] ∧
    Utils.mainRun pdf_exists openResult completed = none := by
  subst h
  refine ⟨rfl, ?_⟩
  cases pdf_exists <;> simp [Utils.mainRun, Utils.convert_pdf_to_images]

/-- C7 witness: a concrete unopenable document yields no images and no
batch. -/
theorem document_open_failure_aborts_witness :
    Utils.convert_pdf_to_images (.error (pystr "cannot open broken.pdf")) = [] ∧
    Utils.mainRun true (.error (pystr "cannot open broken.pdf")) [] = none :=
  document_open_failure_aborts (pystr "cannot open broken.pdf") true _ [] rfl

theorem buildAllText_ok :
    ∀ batch : List PageResult,
      (∀ p ∈ batch, p.error ≠ some []) →
      (∀ p ∈ batch, p.error = none → p.full_text.isSome = true) →
      Utils.buildAllText batch =
        .ok ((batch.filter (fun p => p.error.isNone)).map
          (fun p => pystr "=== Page " ++ natStr p.page_number ++ pystr " ===\n" ++
            p.full_text.getD []))
  | [], _, _ => rfl
  | p :: ps, herr, htext => by
    have ih := buildAllText_ok ps (fun q hq => herr q (List.mem_cons_of_mem p hq))
      (fun q hq => htext q (List.mem_cons_of_mem p hq))
    unfold Utils.buildAllText
    cases he : p.error with
    | none =>
      have htruthy : Utils.pageErrorTruthy p = false := by
        simp [Utils.pageErrorTruthy, he]
      cases hft : p.full_text with
      | none =>
        exact absurd (htext p (List.mem_cons_self p ps) he) (by simp [hft])
      | some t =>
        simp [htruthy, Utils.pageTextEntry, hft, ih, List.filter_cons, he]
    | some msg =>
      have hmsg : ¬ msg = [] := fun hmsg =>
        herr p (List.mem_cons_self p ps) (by rw [he, hmsg])
      have htruthy : Utils.pageErrorTruthy p = true := by
        simp [Utils.pageErrorTruthy, he, List.isEmpty_iff, hmsg]
      simp [htruthy, ih, List.filter_cons, he]

/-- C8 fails as stated: a worker that catches an exception whose message is
the empty string produces an error page whose error key is falsy in Python;
save_results then treats that error page as successful, reads its missing
full_text key, and the comprehension raises KeyError. The json.dump has
already completed at that point, so the run leaves a partial, inconsistent
output — the structured JSON artifact is written, the flattened text
artifact is not — instead of the error page simply being omitted from the
concatenation. -/
theorem save_results_raises_on_empty_error_message :
    (Utils.save_results
        (Utils.batchOf (Utils.submitTasks [⟨.error [], false, true⟩] true))).2 =
      .error (pystr "KeyError: full_text") ∧
    (Utils.save_results
        (Utils.batchOf (Utils.submitTasks [⟨.error [], false, true⟩] true))).1 =
      Utils.batchOf (Utils.submitTasks [⟨.error [], false, true⟩] true) := by decide

/-- C8 (amended): save_results is a pure function of the batch; the
structured JSON artifact is always written first and retains every page,
error pages included. On every batch in which each present error message is
non-empty and each success page carries its text — as ordinary runs
produce — the flattened text artifact is then written too, concatenating
exactly the successful pages under the page delimiter with error pages
omitted; identical batches give identical artifacts. A page carrying an
empty error message instead makes the comprehension raise KeyError after
the JSON artifact is written, leaving a partial output with no text
artifact. -/
theorem save_results_pure_of_wellformed (batch : List PageResult)
    (herr : ∀ p ∈ batch, p.error ≠ some [])
    (htext : ∀ p ∈ batch, p.error = none → p.full_text.isSome = true) :
    Utils.save_results batch = (batch, .ok (persistSpecTxt batch)) := by
  unfold Utils.save_results persistSpecTxt
  rw [buildAllText_ok batch herr htext]

/-- C8 witness: a concrete batch with one successful and one failed page:
the structured artifact keeps both, the flattened artifact holds only page
one. -/
theorem save_results_pure_witness :
    Utils.save_results
        [Utils.pageSuccessResult 1 (pystr "Hi"), Utils.pageErrorResult 2 (pystr "boom")] =
      ([Utils.pageSuccessResult 1 (pystr "Hi"),
        Utils.pageErrorResult 2 (pystr "boom")],
       .ok (persistSpecTxt [Utils.pageSuccessResult 1 (pystr "Hi"),
          Utils.pageErrorResult 2 (pystr "boom")])) :=
  save_results_pure_of_wellformed _ (by decide) (by decide)

theorem poolStep_running_le {W : Nat} {s s' : PoolState} (h : PoolStep W s s')
    (hs : s.running.length ≤ W) : s'.running.length ≤ W := by
  cases h with
  | start p ps r d hlt => simpa using hlt
  | enterOcr pend r₁ r₂ p d =>
    simp only [List.length_append, List.length_cons] at hs ⊢
    omega
  | exitOcr pend r₁ r₂ p d =>
    simp only [List.length_append, List.length_cons] at hs ⊢
    omega
  | finish pend r₁ r₂ p d =>
    simp only [List.length_append, List.length_cons] at hs ⊢
    omega

theorem poolReachable_running_le (W n : Nat) (s : PoolState)
    (h : PoolReachable W n s) : s.running.length ≤ W := by
  induction h with
  | refl => simp [initPool]
  | tail hab hbc ih => exact poolStep_running_le hbc ih

/-- C9: in every state the pipeline can reach, even with more pages than
workers, at most W tasks run at once — max_workers is the sole admission
control — and hence at most W OCR calls are in flight simultaneously. -/
theorem ocr_inflight_bounded (W n : Nat) (s : PoolState)
    (hn : W < n) (h : PoolReachable W n s) : inflightOcr s ≤ W :=
  le_trans (List.length_filter_le _ _) (poolReachable_running_le W n s h)

/-- C9 witness: the initial state of an eleven-page run on the configured
ten-worker pool has no OCR call in flight, within the bound. -/
theorem ocr_inflight_bounded_witness : inflightOcr (initPool 11) ≤ MAX_WORKERS :=
  ocr_inflight_bounded MAX_WORKERS 11 (initPool 11) (by decide)
    Relation.ReflTransGen.refl

theorem pyJoin_ne_nil (sep : List Char) :
    ∀ ls : List (List Char), ls ≠ [] → (∀ l ∈ ls, l ≠ []) → pyJoin sep ls ≠ []
  | [], h, _ => absurd rfl h
  | [x], _, h => by simpa [pyJoin] using h x (by simp)
  | x :: y :: xs, _, h => by
    have hx : x ≠ [] := h x (by simp)
    simp [pyJoin, hx]

theorem normalized_lines_ne_nil (t : List Char) :
    ∀ l ∈ ((splitNl t).filter (fun line => !(pyStrip line).isEmpty)).map pyStrip,
      l ≠ [] := by
  intro l hl
  rcases List.mem_map.mp hl with ⟨x, hx, rfl⟩
  have h2 := (List.mem_filter.mp hx).2
  simpa [List.isEmpty_iff] using h2

theorem pageSuccess_has_content_iff (n : Nat) (t : List Char) :
    ((Utils.pageSuccessResult n t).has_content = true ↔
      (Utils.pageSuccessResult n t).full_text ≠ some []) := by
  simp only [Utils.pageSuccessResult]
  constructor
  · intro h hc
    have hjoin : pyJoin ['\n']
        (((splitNl t).filter (fun line => !(pyStrip line).isEmpty)).map pyStrip) = [] := by
      simpa using hc
    have hne : ((splitNl t).filter (fun line => !(pyStrip line).isEmpty)).map pyStrip ≠ [] := by
      simpa [List.isEmpty_iff] using h
    exact pyJoin_ne_nil ['\n'] _ hne (normalized_lines_ne_nil t) hjoin
  · intro h
    by_contra hcon
    have hnil : ((splitNl t).filter (fun line => !(pyStrip line).isEmpty)).map pyStrip = [] := by
      simpa [List.isEmpty_iff] using hcon
    exact h (by simp [hnil, pyJoin])

/-- C10: every success result of the per-page processor (one carrying no
error field) has has_content true exactly when its normalized full_text is
non-empty. -/
theorem has_content_iff_text_nonempty (n : Nat) (env : PageEnv) (c : Bool)
    (r : PageResult) (hok : Utils.process_single_page n env c = .ok r)
    (hsucc : r.error = none) :
    (r.has_content = true ↔ r.full_text ≠ some []) := by
  rcases env with ⟨ocr, fe, ro⟩
  cases ocr with
  | error msg =>
    cases c <;> cases fe <;> cases ro <;>
      simp_all [Utils.process_single_page, Utils.process_single_page_run,
        Utils.pageErrorResult] <;>
      (subst hok; simp at hsucc)
  | ok t =>
    have hr : r = Utils.pageSuccessResult n t := by
      cases c <;> cases fe <;> cases ro <;>
        simp_all [Utils.process_single_page, Utils.process_single_page_run]
    rw [hr]
    exact pageSuccess_has_content_iff n t

/-- C10 witness: a concrete success result with text hi: has_content is
true and the text is non-empty. -/
theorem has_content_iff_witness :
    ((Utils.pageSuccessResult 1 (pystr "hi")).has_content = true ↔
      (Utils.pageSuccessResult 1 (pystr "hi")).full_text ≠ some []) :=
  has_content_iff_text_nonempty 1 ⟨.ok (pystr "hi"), false, true⟩ false _ rfl rfl

/-- C5 witness: the amended theorem instantiated on concrete Odia text:
the legacy classifier agrees with the canonical spec-side classifier. -/
theorem detect_languages_canonical_witness :
    FullScript.detect_languages_in_text (pystr "ଓଡ hello") =
      classifySpec (pystr "ଓଡ hello") :=
  (detect_languages_canonical.1 (pystr "ଓଡ hello")).1

/-- C6 witness: the normalization theorem instantiated on a concrete raw
text. -/
theorem normalization_correct_witness :
    (Utils.pageSuccessResult 7 (pystr " a \nb ")).full_text =
      some (pyJoin ['\n'] (normalizeSpec (pystr " a \nb "))) :=
  (normalization_correct.1 (pystr " a \nb ") 7).1
